import Mathlib

/-!
Verification development for the fertilizer-dashboard core logic
(`dashboard_fertilizantes.py`): the CSV loader/normalizer
(`load_and_clean_data`, lines 14-57) and the nitrogen-efficiency
derivation (lines 158-174).

Numeric cells are modelled as rationals (`ℚ`); a table is a header of
column names plus rows of cells, mirroring the pandas `DataFrame` the
script manipulates.
-/

namespace Fert

/-- Cell of a data table: a finite number (kept exact as a rational), a
float infinity (`neg` is its sign), a text value, or a missing value
(pandas `NaN`).  Infinities can reach a table because Python's float
conversion — used by `pd.read_csv` and `pd.to_numeric` — parses `inf`,
`Infinity` and overflowing literals to float infinity, which is not NaN
and so survives `.fillna(0)`. -/
inductive Cell : Type where
  | num (q : ℚ)
  | inf (neg : Bool)
  | str (s : String)
  | null
  deriving DecidableEq, Repr

/-- Whitespace characters removed by Python's `str.strip()`. -/
def isPyWs (c : Char) : Bool :=
  c == ' ' || c == '\t' || c == '\n' || c == '\r' || c == '\x0b' || c == '\x0c'

/-- Strip leading and trailing whitespace from a character list
(Python `str.strip()`, used at line 35: `col.strip()`). -/
def stripList (l : List Char) : List Char :=
  List.rdropWhile isPyWs (List.dropWhile isPyWs l)

/-- Python `col.strip()` on strings. -/
def pyStrip (s : String) : String :=
  ⟨stripList s.data⟩

/-- Python's substring test `pat in s` (case-sensitive containment). -/
def hasSub (s pat : String) : Bool :=
  decide (pat.data <:+: s.data)

/-- Source lines 38-44: the if/elif chain mapping a stripped column name
to its canonical name; falls through to the stripped name itself. -/
def ruleApply (n : String) : String :=
  if hasSub n "N (%)" || hasSub n "N_%" then "N"
  else if hasSub n "P (%)" || hasSub n "P_%" then "P"
  else if hasSub n "K (%)" || hasSub n "K_%" then "K"
  else if hasSub n "Pre" && hasSub n "Est" then "Preco_Saca"
  else if hasSub n "Total" && hasSub n "Ha" then "Custo_por_Ha"
  else if hasSub n "Saca" && hasSub n "Kg" then "Saca_Kg"
  else n

/-- Source lines 33-46: `new_col = col.strip()` followed by the renaming
chain; this is the per-column entry of the `clean_cols` dictionary. -/
def clean_col (col : String) : String :=
  ruleApply (pyStrip col)

/-- Columns coerced to numbers at source lines 52-55. -/
def numericCols : List String :=
  ["N", "P", "K", "Preco_Saca", "Custo_por_Ha"]

/-- Value of a decimal digit string (most significant first). -/
def digitsVal (cs : List Char) : ℕ :=
  cs.foldl (fun a c => a * 10 + (c.toNat - 48)) 0

/-- Split an optional leading sign off a float literal; the flag is true
for a negative sign. -/
def splitSign : List Char → Bool × List Char
  | '-' :: rest => (true, rest)
  | '+' :: rest => (false, rest)
  | cs => (false, cs)

/-- ASCII lowercasing of a character list (Python's float conversion
accepts infinity literals in any letter case). -/
def lowerAscii (cs : List Char) : List Char :=
  cs.map Char.toLower

/-- Result of a successful numeric parse of one cell text: a float that
is either finite (kept exact as a rational) or an infinity.  A `nan`
literal parses to NaN, which `.fillna(0)` at line 55 turns into `0`
just like a parse failure, so NaN is folded with parse failure here. -/
inductive FloatVal : Type where
  | fin (q : ℚ)
  | inf (neg : Bool)
  deriving DecidableEq, Repr

/-- Embed a parsed float into a table cell. -/
def FloatVal.toCell : FloatVal → Cell
  | .fin q => .num q
  | .inf b => .inf b

/-- Exact value of the mantissa part of a float literal: digits with an
optional decimal point (at least one digit overall). -/
def parseMantissa (cs : List Char) : Option ℚ :=
  let intPart := cs.takeWhile Char.isDigit
  let rest := cs.dropWhile Char.isDigit
  match rest with
  | [] => if intPart.isEmpty then none else some (digitsVal intPart)
  | '.' :: frac =>
      if frac.all Char.isDigit && !(intPart.isEmpty && frac.isEmpty) then
        some ((digitsVal intPart : ℚ) +
          (digitsVal frac : ℚ) / (10 : ℚ) ^ frac.length)
      else none
  | _ => none

/-- Parse a cell text as a float, the way the float conversion under
`pd.read_csv`/`pd.to_numeric(..., errors='coerce')` does: optional
surrounding whitespace and sign, then either an infinity literal
(`inf`/`infinity` in any case) or a decimal mantissa with an optional
exponent.  A magnitude at or beyond `2 ^ 1024` overflows the double
range and yields infinity, as `float('1e999')` does; below that the
value is kept exact (the sub-ulp rounding at the edge of the double
range is idealized).  Anything else — the empty string included —
fails. -/
def parseFloat? (s : String) : Option FloatVal :=
  let cs := stripList s.data
  let sgn := splitSign cs
  let neg := sgn.1
  let body := sgn.2
  if lowerAscii body = "inf".data ∨ lowerAscii body = "infinity".data then
    some (.inf neg)
  else
    let mantChars := body.takeWhile (fun c => !(c == 'e' || c == 'E'))
    let expChars := body.dropWhile (fun c => !(c == 'e' || c == 'E'))
    let mant? := parseMantissa mantChars
    let exp? : Option ℤ :=
      match expChars with
      | [] => some 0
      | _ :: rest =>
          let esgn := splitSign rest
          if esgn.2.isEmpty || !esgn.2.all Char.isDigit then none
          else some (if esgn.1 then -(digitsVal esgn.2 : ℤ) else (digitsVal esgn.2 : ℤ))
    match mant?, exp? with
    | some m, some e =>
        let v := m * (10 : ℚ) ^ e
        if (2 : ℚ) ^ 1024 ≤ v then some (.inf neg)
        else some (.fin (if neg then -v else v))
    | _, _ => none

/-- Source line 55: `pd.to_numeric(df[col], errors='coerce').fillna(0)`
applied to one cell — numbers (infinities included) pass through, text
is parsed as a float, and any unparseable or missing value becomes `0`;
a parsed infinity is not NaN and so is kept by `fillna`. -/
def toNumeric0 (c : Cell) : Cell :=
  match c with
  | .num q => .num q
  | .inf b => .inf b
  | .str s => ((parseFloat? s).map FloatVal.toCell).getD (.num 0)
  | .null => .num 0

/-- Per-cell form of the coercion loop of lines 52-55: a cell is coerced
exactly when its (already renamed) column is one of the five numeric
columns. -/
def coerceCell (h : String) (c : Cell) : Cell :=
  if h ∈ numericCols then toNumeric0 c else c

/-- Data table: a header of column names and rows of cells (the
`DataFrame` of the script). -/
structure Table : Type where
  header : List String
  rows : List (List Cell)
  deriving DecidableEq, Repr

/-- Source lines 29-55 applied to a parsed raw table: rename every column
through `clean_col`, then coerce the five numeric columns. -/
def normalize (raw : Table) : Table :=
  let hdr := raw.header.map clean_col
  ⟨hdr, raw.rows.map (fun r => List.zipWith coerceCell hdr r)⟩

/-- Source lines 14-57, `load_and_clean_data`: the filesystem is
abstracted as a map from paths to the raw table parsed from the file at
that path (`none` when no file exists there).  Line 17 returns `None`
when the file is absent; otherwise the table is normalized. -/
def load (fs : String → Option Table) (path : String) : Option Table :=
  match fs path with
  | none => none
  | some raw => some (normalize raw)

/-- ProductRecord of the spec's data model: one clean, filtered row as
consumed by the efficiency derivation (columns of line 158). -/
structure ProductRecord : Type where
  Produto : String
  N : ℚ
  Custo_por_Ha : ℚ
  KG_por_Ha : ℚ
  deriving DecidableEq, Repr

/-- EfficiencyRecord: a product row extended with the two derived
columns of source lines 163-171. -/
structure EfficiencyRecord extends ProductRecord where
  Unidades_N_Ha : ℚ
  Custo_Por_Unidade_N : ℚ
  deriving DecidableEq, Repr

/-- Per-row computation of source lines 163-171:
`Unidades_N_Ha = KG_por_Ha * (N / 100)` and
`Custo_Por_Unidade_N = Custo_por_Ha / Unidades_N_Ha` when
`Unidades_N_Ha > 0`, else `0`. -/
def computeRow (r : ProductRecord) : EfficiencyRecord :=
  let u := r.KG_por_Ha * (r.N / 100)
  { toProductRecord := r
    Unidades_N_Ha := u
    Custo_Por_Unidade_N := if 0 < u then r.Custo_por_Ha / u else 0 }

/-- Insert an element into a list sorted by `key` (ascending). -/
def insertLe {α : Type} (key : α → ℚ) (x : α) : List α → List α
  | [] => [x]
  | y :: ys => if key x ≤ key y then x :: y :: ys else y :: insertLe key x ys

/-- Ascending comparison sort by a rational key, modelling
`sort_values(...)` at source line 174. -/
def sortByKey {α : Type} (key : α → ℚ) : List α → List α
  | [] => []
  | x :: xs => insertLe key x (sortByKey key xs)

/-- Record-level efficiency pipeline of source lines 163-174: compute the
two derived values for every row, keep the rows with
`Unidades_N_Ha > 0`, and sort ascending by `Custo_Por_Unidade_N`. -/
def deriveEfficiency (rows : List ProductRecord) : List EfficiencyRecord :=
  sortByKey (fun e => e.Custo_Por_Unidade_N)
    (((rows.map computeRow)).filter (fun e => decide (0 < e.Unidades_N_Ha)))

/-- Columns required by the efficiency section (source line 158). -/
def requiredEffCols : List String :=
  ["N", "Custo_por_Ha", "KG_por_Ha", "Produto"]

/-- Cell of a row under a given header, looked up by column name
(`row['...']` in the `apply` lambda); `null` when the column is absent. -/
def cellAt (hdr : List String) (row : List Cell) (name : String) : Cell :=
  (((hdr.zip row).find? (fun p => p.1 == name)).map (fun p => p.2)).getD .null

/-- Numeric value of a cell (the arithmetic of lines 163-171 is applied
to numeric cells; non-numeric cells are read as `0` here). -/
def cellQ (c : Cell) : ℚ :=
  match c with
  | .num q => q
  | _ => 0

/-- Pandas column assignment `df[name] = vals`: overwrite the column when
the name exists, otherwise append it on the right. -/
def Table.setCol (t : Table) (name : String) (vals : List Cell) : Table :=
  match t.header.indexOf? name with
  | some i => ⟨t.header, List.zipWith (fun r v => r.set i v) t.rows vals⟩
  | none => ⟨t.header ++ [name], List.zipWith (fun r v => r ++ [v]) t.rows vals⟩

/-- Sort table rows ascending by the numeric value of the named column
(`sort_values('Custo_Por_Unidade_N')`, line 174). -/
def sortRowsBy (hdr : List String) (name : String) (rows : List (List Cell)) :
    List (List Cell) :=
  sortByKey (fun r => cellQ (cellAt hdr r name)) rows

/-- Source lines 158-174 as written: when the four required columns are
present, the two derived columns are assigned onto the incoming
(filtered) table itself, and the chart table is the rows with
`Unidades_N_Ha > 0` sorted by `Custo_Por_Unidade_N`.  The result is the
post-state of `filtered_df` paired with the chart table (`none` when the
precondition fails and the warning branch of line 201 runs instead). -/
def effSection (t : Table) : Table × Option Table :=
  if requiredEffCols.all (fun n => t.header.contains n) then
    let uni := t.rows.map (fun r =>
      Cell.num (cellQ (cellAt t.header r "KG_por_Ha") *
        (cellQ (cellAt t.header r "N") / 100)))
    let t1 := t.setCol "Unidades_N_Ha" uni
    let cost := t1.rows.map (fun r =>
      let u := cellQ (cellAt t1.header r "Unidades_N_Ha")
      Cell.num (if 0 < u then cellQ (cellAt t1.header r "Custo_por_Ha") / u else 0))
    let t2 := t1.setCol "Custo_Por_Unidade_N" cost
    let chart := t2.rows.filter (fun r =>
      decide (0 < cellQ (cellAt t2.header r "Unidades_N_Ha")))
    (t2, some ⟨t2.header, sortRowsBy t2.header "Custo_Por_Unidade_N" chart⟩)
  else (t, none)

/-- The spec's worked example row: Ureia with 45% N, 200 currency per
hectare, 100 kg applied per hectare. -/
def ureiaRow : ProductRecord :=
  { Produto := "Ureia", N := 45, Custo_por_Ha := 200, KG_por_Ha := 100 }

/-- Derived record expected for the Ureia example: 45 nitrogen units per
hectare at 200/45 per unit. -/
def ureiaEff : EfficiencyRecord :=
  { toProductRecord := ureiaRow, Unidades_N_Ha := 45, Custo_Por_Unidade_N := 200 / 45 }

/-- The spec's zero-nitrogen example row. -/
def zeroRow : ProductRecord :=
  { Produto := "X", N := 0, Custo_por_Ha := 50, KG_por_Ha := 10 }

/-- Specification-side ordered rule table of §4.1: pairs of a
substring predicate on the (already trimmed) name and the canonical
name it yields. -/
def specRuleTable : List ((String → Bool) × String) :=
  [(fun n => hasSub n "N (%)" || hasSub n "N_%", "N"),
   (fun n => hasSub n "P (%)" || hasSub n "P_%", "P"),
   (fun n => hasSub n "K (%)" || hasSub n "K_%", "K"),
   (fun n => hasSub n "Pre" && hasSub n "Est", "Preco_Saca"),
   (fun n => hasSub n "Total" && hasSub n "Ha", "Custo_por_Ha"),
   (fun n => hasSub n "Saca" && hasSub n "Kg", "Saca_Kg")]

/-- Specification-side first-match-wins evaluation of an ordered rule
table; when no rule matches the name is kept. -/
def firstMatch : List ((String → Bool) × String) → String → String
  | [], n => n
  | (p, c) :: rest, n => if p n then c else firstMatch rest n

/-- Specification-side column normalization: trim the raw name, then
apply the first matching rule of the ordered rule table. -/
def specNormalizeName (s : String) : String :=
  firstMatch specRuleTable (pyStrip s)

/-- Concrete table with the four columns the efficiency section
requires, holding the Ureia example row. -/
def exampleTable : Table :=
  { header := ["Produto", "N", "Custo_por_Ha", "KG_por_Ha"],
    rows := [[.str "Ureia", .num 45, .num 200, .num 100]] }

/-- Concrete raw table whose `KG_por_Ha` column holds a non-numeric
text cell. -/
def rawKGTable : Table :=
  { header := ["Produto", "KG_por_Ha"],
    rows := [[.str "Ureia", .str "1O0"]] }

/-- Concrete filesystem holding `rawKGTable` at the conventional data
path. -/
def fsKG : String → Option Table :=
  fun p => if p = "Fertilizante.csv" then some rawKGTable else none

/-- Concrete raw table whose nitrogen column holds an unparseable text
cell. -/
def rawNTable : Table :=
  { header := ["Produto", "N (%)"],
    rows := [[.str "Ureia", .str "abc"]] }

/-- Concrete filesystem holding `rawNTable` at the conventional data
path. -/
def fsN : String → Option Table :=
  fun p => if p = "Fertilizante.csv" then some rawNTable else none

/-- Concrete raw table whose nitrogen column holds the text `inf`,
which the float conversion parses to positive infinity. -/
def rawInfTable : Table :=
  { header := ["N (%)"],
    rows := [[.str "inf"]] }

/-- Concrete filesystem holding `rawInfTable` at the conventional data
path. -/
def fsInf : String → Option Table :=
  fun p => if p = "Fertilizante.csv" then some rawInfTable else none

/-! Helper lemmas. -/

/-- Membership after an ordered insertion comes from the inserted
element or the old list. -/
lemma mem_insertLe {α : Type} (key : α → ℚ) (x a : α) :
    ∀ l : List α, x ∈ insertLe key a l → x = a ∨ x ∈ l := by
  intro l
  induction l with
  | nil => intro h; rw [insertLe, List.mem_singleton] at h; exact Or.inl h
  | cons y ys ih =>
      intro h
      simp only [insertLe] at h
      by_cases hk : key a ≤ key y
      · rw [if_pos hk, List.mem_cons] at h
        rcases h with h | h
        · exact Or.inl h
        · exact Or.inr h
      · rw [if_neg hk, List.mem_cons] at h
        rcases h with h | h
        · exact Or.inr (h ▸ List.mem_cons_self y ys)
        · rcases ih h with h1 | h1
          · exact Or.inl h1
          · exact Or.inr (List.mem_cons_of_mem y h1)

/-- Membership in the sorted output comes from the input list. -/
lemma mem_sortByKey {α : Type} (key : α → ℚ) (x : α) :
    ∀ l : List α, x ∈ sortByKey key l → x ∈ l := by
  intro l
  induction l with
  | nil => intro h; simp [sortByKey] at h
  | cons a l ih =>
      intro h
      rw [sortByKey] at h
      rcases mem_insertLe key x a _ h with h1 | h1
      · exact h1 ▸ List.mem_cons_self a l
      · exact List.mem_cons_of_mem a (ih h1)

/-- The Ureia example evaluates through the whole record-level
pipeline. -/
lemma deriveEfficiency_ureia : deriveEfficiency [ureiaRow] = [ureiaEff] := by
  have hrow : computeRow ureiaRow = ureiaEff := by
    simp only [computeRow, ureiaRow, ureiaEff, EfficiencyRecord.mk.injEq]
    norm_num
  simp only [deriveEfficiency, List.map_cons, List.map_nil, hrow]
  have hpos : (0 : ℚ) < ureiaEff.Unidades_N_Ha := by norm_num [ureiaEff]
  simp [List.filter, hpos, sortByKey, insertLe]

/-- Stripping leading then trailing whitespace is idempotent. -/
lemma stripList_idem (l : List Char) : stripList (stripList l) = stripList l := by
  unfold stripList
  set A := List.dropWhile isPyWs l with hA
  have hAfix : List.dropWhile isPyWs A = A := List.dropWhile_idempotent isPyWs l
  set B := List.rdropWhile isPyWs A with hB
  have hBA : B <+: A := List.rdropWhile_prefix isPyWs A
  have hBfix : List.dropWhile isPyWs B = B := by
    rw [List.dropWhile_eq_self_iff]
    intro hl
    have hlen : 0 < A.length := lt_of_lt_of_le hl hBA.length_le
    have hgot : B.get ⟨0, hl⟩ = A.get ⟨0, hlen⟩ := by
      simp only [List.get_eq_getElem]
      exact hBA.getElem hl
    rw [hgot]
    exact List.dropWhile_eq_self_iff.mp hAfix hlen
  rw [hBfix]
  exact List.rdropWhile_idempotent isPyWs A

/-- Python strip is idempotent on strings. -/
lemma pyStrip_idem (s : String) : pyStrip (pyStrip s) = pyStrip s :=
  congrArg String.mk (stripList_idem s.data)

/-- The renaming chain either yields one of the six canonical names or
leaves its argument unchanged. -/
lemma ruleApply_cases (n : String) :
    ruleApply n ∈ ["N", "P", "K", "Preco_Saca", "Custo_por_Ha", "Saca_Kg"] ∨
      ruleApply n = n := by
  unfold ruleApply
  split_ifs <;> simp

/-! Claim theorems. -/

/-- C1: for every row with the efficiency columns, the derivation sets
`Unidades_N_Ha = KG_por_Ha * (N / 100)` and `Custo_Por_Unidade_N =
Custo_por_Ha / Unidades_N_Ha` when `Unidades_N_Ha > 0` and `0`
otherwise; the Ureia example yields `Unidades_N_Ha = 45` and
`Custo_Por_Unidade_N = 200 / 45`. -/
theorem efficiency_row_formula :
    (∀ r : ProductRecord,
      (computeRow r).Unidades_N_Ha = r.KG_por_Ha * (r.N / 100) ∧
      (0 < (computeRow r).Unidades_N_Ha →
        (computeRow r).Custo_Por_Unidade_N =
          r.Custo_por_Ha / (computeRow r).Unidades_N_Ha) ∧
      (¬ 0 < (computeRow r).Unidades_N_Ha →
        (computeRow r).Custo_Por_Unidade_N = 0)) ∧
    deriveEfficiency [ureiaRow] = [ureiaEff] ∧
    ureiaEff.Unidades_N_Ha = 45 ∧ ureiaEff.Custo_Por_Unidade_N = 200 / 45 := by
  refine ⟨fun r => ?_, deriveEfficiency_ureia, by norm_num [ureiaEff], by norm_num [ureiaEff]⟩
  refine ⟨rfl, fun h => ?_, fun h => ?_⟩
  · simp only [computeRow] at h ⊢
    rw [if_pos h]
  · simp only [computeRow] at h ⊢
    rw [if_neg h]

/-- C1 witness: the general formula applied to the concrete Ureia row. -/
theorem efficiency_row_formula_witness :
    0 < (computeRow ureiaRow).Unidades_N_Ha ∧
    (computeRow ureiaRow).Custo_Por_Unidade_N =
      ureiaRow.Custo_por_Ha / (computeRow ureiaRow).Unidades_N_Ha :=
  ⟨by norm_num [computeRow, ureiaRow],
   (efficiency_row_formula.1 ureiaRow).2.1 (by norm_num [computeRow, ureiaRow])⟩

/-- C3: the derivation never divides by zero — a row with
`KG_por_Ha * N = 0` gets `Custo_Por_Unidade_N = 0` — and every record
of the ranked result has `Unidades_N_Ha > 0`, so rows with
`Unidades_N_Ha ≤ 0` are excluded rather than shown with a zero cost. -/
theorem efficiency_no_div_by_zero :
    (∀ r : ProductRecord, r.KG_por_Ha * r.N = 0 →
      (computeRow r).Custo_Por_Unidade_N = 0) ∧
    ∀ (rows : List ProductRecord) (e : EfficiencyRecord),
      e ∈ deriveEfficiency rows → 0 < e.Unidades_N_Ha := by
  constructor
  · intro r h
    have hu : r.KG_por_Ha * (r.N / 100) = 0 := by
      rw [mul_div_assoc'] at *
      rw [h, zero_div]
    simp only [computeRow, hu]
    norm_num
  · intro rows e he
    have h1 := mem_sortByKey _ e _ he
    rw [List.mem_filter] at h1
    simpa using h1.2

/-- C3 witness: the zero-nitrogen example row gets cost 0, and the Ureia
record in the ranked output has positive nitrogen units. -/
theorem efficiency_no_div_by_zero_witness :
    (computeRow zeroRow).Custo_Por_Unidade_N = 0 ∧ 0 < ureiaEff.Unidades_N_Ha :=
  ⟨efficiency_no_div_by_zero.1 zeroRow (by norm_num [zeroRow]),
   efficiency_no_div_by_zero.2 [ureiaRow] ureiaEff
     (by rw [deriveEfficiency_ureia]; exact List.mem_singleton_self ureiaEff)⟩

/-- C5: column normalization is trim followed by the first matching rule
of the ordered rule table; in particular raw header N (%) maps to N and
raw header Custo Total / Ha maps to Custo_por_Ha. -/
theorem clean_col_first_match :
    (∀ s : String, clean_col s = specNormalizeName s) ∧
    clean_col "N (%)" = "N" ∧ clean_col "Custo Total / Ha" = "Custo_por_Ha" := by
  refine ⟨fun s => rfl, by decide, by decide⟩

/-- C8: renaming is idempotent — each of the six canonical names is left
unchanged, and applying the normalization twice equals applying it
once (so names untouched by the rules stay fixed as well). -/
theorem clean_col_idempotent :
    clean_col "N" = "N" ∧ clean_col "P" = "P" ∧ clean_col "K" = "K" ∧
    clean_col "Preco_Saca" = "Preco_Saca" ∧
    clean_col "Custo_por_Ha" = "Custo_por_Ha" ∧
    clean_col "Saca_Kg" = "Saca_Kg" ∧
    ∀ s : String, clean_col (clean_col s) = clean_col s := by
  refine ⟨by decide, by decide, by decide, by decide, by decide, by decide, fun s => ?_⟩
  show ruleApply (pyStrip (ruleApply (pyStrip s))) = ruleApply (pyStrip s)
  rcases ruleApply_cases (pyStrip s) with hmem | heq
  · simp only [List.mem_cons, List.not_mem_nil, or_false] at hmem
    rcases hmem with h | h | h | h | h | h <;> rw [h] <;> decide
  · rw [heq, pyStrip_idem]
    exact heq

/-- C9: when no file exists at the path, the loader returns the absence
value rather than raising. -/
theorem load_missing_file :
    ∀ (fs : String → Option Table) (path : String),
      fs path = none → load fs path = none := by
  intro fs path h
  simp [load, h]

/-- C9 witness: loading a missing file on an empty filesystem. -/
theorem load_missing_file_witness :
    load (fun _ => none) "does_not_exist.csv" = none :=
  load_missing_file (fun _ => none) "does_not_exist.csv" rfl

/-- Pairs of a list zipped with a pointwise image of itself have second
components of the image form. -/
lemma mem_zip_zipWith {α β γ : Type} (f : α → β → γ) :
    ∀ (l : List α) (r : List β) (p : α × γ),
      p ∈ l.zip (List.zipWith f l r) → ∃ c, p.2 = f p.1 c := by
  intro l
  induction l with
  | nil => intro r p h; simp at h
  | cons a l ih =>
      intro r p h
      cases r with
      | nil => simp at h
      | cons b r =>
          rw [List.zipWith_cons_cons, List.zip_cons_cons, List.mem_cons] at h
          rcases h with h | h
          · subst h; exact ⟨b, rfl⟩
          · exact ih r p h

/-- Pairs of a list zipped with its map have image second components. -/
lemma mem_zip_map {α β : Type} (F : α → β) :
    ∀ (l : List α) (p : α × β), p ∈ l.zip (l.map F) → p.2 = F p.1 := by
  intro l
  induction l with
  | nil => intro p h; simp at h
  | cons a l ih =>
      intro p h
      rw [List.map_cons, List.zip_cons_cons, List.mem_cons] at h
      rcases h with h | h
      · subst h; rfl
      · exact ih p h

/-- Zipping a list with its own pointwise image by `zipWith` collapses
to a map. -/
lemma zipWith_map_self {α β γ : Type} (g : α → β → γ) (f : α → β) :
    ∀ l : List α, List.zipWith g l (l.map f) = l.map (fun a => g a (f a)) := by
  intro l
  induction l with
  | nil => rfl
  | cons a l ih => rw [List.map_cons, List.zipWith_cons_cons, ih, List.map_cons]

/-- The numeric coercion of one cell always yields a float cell — finite
or an infinity — never text and never null. -/
lemma toNumeric0_shape (c : Cell) :
    (∃ q : ℚ, toNumeric0 c = Cell.num q) ∨ ∃ b : Bool, toNumeric0 c = Cell.inf b := by
  cases c with
  | num q => exact Or.inl ⟨q, rfl⟩
  | inf b => exact Or.inr ⟨b, rfl⟩
  | null => exact Or.inl ⟨0, rfl⟩
  | str s =>
      cases hp : parseFloat? s with
      | none => exact Or.inl ⟨0, by simp [toNumeric0, hp]⟩
      | some v =>
          cases v with
          | fin q => exact Or.inl ⟨q, by simp [toNumeric0, hp, FloatVal.toCell]⟩
          | inf b => exact Or.inr ⟨b, by simp [toNumeric0, hp, FloatVal.toCell]⟩

/-- C4 counterexample: the loaded table is not restricted to finite
numbers in the numeric columns — the reachable cell text `inf` parses
to float infinity, which `.fillna(0)` keeps, so the N column of this
concrete loaded table holds a non-finite value. -/
theorem load_infinity_reaches_table :
    load fsInf "Fertilizante.csv" = some ⟨["N"], [[Cell.inf false]]⟩ ∧
    ∀ q : ℚ, (Cell.inf false : Cell) ≠ Cell.num q := by
  refine ⟨rfl, ?_⟩
  intro q h
  cases h

/-- C4 amended: every cell of a present numeric column in a loaded
table is a float — finite or an infinity, never text and never null;
any cell whose text fails to parse as a number (the empty cell
included) becomes 0.0, and no unparseable value makes the loader
abort. -/
theorem load_numeric_columns_amended :
    (∀ (fs : String → Option Table) (path : String) (t : Table),
      load fs path = some t →
      ∀ row ∈ t.rows, ∀ p ∈ t.header.zip row, p.1 ∈ numericCols →
        (∃ q : ℚ, p.2 = Cell.num q) ∨ ∃ b : Bool, p.2 = Cell.inf b) ∧
    (∀ s : String, parseFloat? s = none → toNumeric0 (.str s) = Cell.num 0) ∧
    toNumeric0 .null = Cell.num 0 ∧ parseFloat? "" = none := by
  refine ⟨?_, ?_, rfl, rfl⟩
  · intro fs path t hload row hrow p hp hmem
    rw [load] at hload
    cases hfs : fs path with
    | none => rw [hfs] at hload; cases hload
    | some raw =>
        rw [hfs] at hload
        have ht : normalize raw = t := Option.some.inj hload
        subst ht
        simp only [normalize] at hrow hp
        rcases List.mem_map.mp hrow with ⟨r₀, _, hr⟩
        subst hr
        rcases mem_zip_zipWith coerceCell _ r₀ p hp with ⟨c, hc⟩
        rw [coerceCell, if_pos hmem] at hc
        rw [hc]
        exact toNumeric0_shape c
  · intro s h
    simp [toNumeric0, h]

/-- C4 amended witness: the loader output for a table whose nitrogen
column holds the unparseable text abc has a float cell there (the
finite 0). -/
theorem load_numeric_columns_amended_witness :
    (∃ q : ℚ, (("N", Cell.num 0) : String × Cell).2 = Cell.num q) ∨
    ∃ b : Bool, (("N", Cell.num 0) : String × Cell).2 = Cell.inf b :=
  load_numeric_columns_amended.1 fsN "Fertilizante.csv" (normalize rawNTable) rfl
    [Cell.str "Ureia", Cell.num 0]
    (by rw [show (normalize rawNTable).rows = [[Cell.str "Ureia", Cell.num 0]] from rfl]
        exact List.mem_singleton_self _)
    ("N", Cell.num 0)
    (by rw [show (normalize rawNTable).header.zip [Cell.str "Ureia", Cell.num 0] =
          [("Produto", Cell.str "Ureia"), ("N", Cell.num 0)] from rfl]
        exact List.mem_cons_of_mem _ (List.mem_singleton_self _))
    (by decide)

/-- C10: numeric coercion touches only the five numeric columns — every
cell of any other column (such as `KG_por_Ha`) passes through `load`
unchanged; concretely a text `KG_por_Ha` cell survives as text. -/
theorem load_untouched_columns :
    (∀ (fs : String → Option Table) (path : String) (raw t : Table),
      fs path = some raw → load fs path = some t →
      t.header = raw.header.map clean_col ∧
      t.rows.length = raw.rows.length ∧
      ∀ (k i : ℕ) (row₀ row : List Cell) (h : String) (c : Cell),
        raw.rows.get? k = some row₀ → t.rows.get? k = some row →
        t.header.get? i = some h → h ∉ numericCols →
        row₀.get? i = some c → row.get? i = some c) ∧
    clean_col "KG_por_Ha" = "KG_por_Ha" ∧ "KG_por_Ha" ∉ numericCols ∧
    load fsKG "Fertilizante.csv" =
      some ⟨["Produto", "KG_por_Ha"], [[Cell.str "Ureia", Cell.str "1O0"]]⟩ := by
  refine ⟨?_, by decide, by decide, rfl⟩
  intro fs path raw t hfs hload
  rw [load, hfs] at hload
  have ht : normalize raw = t := Option.some.inj hload
  subst ht
  refine ⟨rfl, by simp [normalize], ?_⟩
  intro k i row₀ row h c hk hk2 hi hmem hcell
  simp only [normalize, List.get?_map, hk, Option.map_some] at hk2
  have hrow : List.zipWith coerceCell (raw.header.map clean_col) row₀ = row :=
    Option.some.inj hk2
  subst hrow
  rw [List.get?_zipWith']
  simp only [normalize] at hi
  rw [hi, hcell]
  simp [coerceCell, hmem]

/-- C10 witness: the text cell of the `KG_por_Ha` column of the loaded
concrete table is the untouched source cell. -/
theorem load_untouched_columns_witness :
    [Cell.str "Ureia", Cell.str "1O0"].get? 1 = some (Cell.str "1O0") :=
  (load_untouched_columns.1 fsKG "Fertilizante.csv" rawKGTable
      ⟨["Produto", "KG_por_Ha"], [[Cell.str "Ureia", Cell.str "1O0"]]⟩ rfl rfl).2.2
    0 1 [Cell.str "Ureia", Cell.str "1O0"] [Cell.str "Ureia", Cell.str "1O0"]
    "KG_por_Ha" (Cell.str "1O0") rfl rfl rfl (by decide) rfl

/-- C6: when any of the four required columns is missing, the efficiency
section is skipped entirely — the table is left as it was and no chart
data is produced (the insufficient-data warning branch runs). -/
theorem effSection_requires_columns :
    ∀ (t : Table) (c : String), c ∈ requiredEffCols → c ∉ t.header →
      effSection t = (t, none) := by
  intro t c hc hnot
  rw [effSection, if_neg]
  intro hall
  rw [List.all_eq_true] at hall
  have := hall c hc
  simp only [List.contains, List.elem_eq_mem, decide_eq_true_eq] at this
  exact hnot this

/-- C6 witness: a table holding only a `Produto` column is passed
through untouched with no chart data. -/
theorem effSection_requires_columns_witness :
    effSection ⟨["Produto"], [[Cell.str "Ureia"]]⟩ =
      (⟨["Produto"], [[Cell.str "Ureia"]]⟩, none) :=
  effSection_requires_columns ⟨["Produto"], [[Cell.str "Ureia"]]⟩ "N"
    (by decide) (by decide)

/-- C7 counterexample: the efficiency section does mutate the table the
caller holds — on the concrete example table the post-state differs
from the input (two derived columns were added in place). -/
theorem effSection_mutates_input :
    (effSection exampleTable).1 ≠ exampleTable := by
  intro h
  have hh : (effSection exampleTable).1.header = exampleTable.header :=
    congrArg Table.header h
  rw [show (effSection exampleTable).1.header =
      ["Produto", "N", "Custo_por_Ha", "KG_por_Ha",
       "Unidades_N_Ha", "Custo_Por_Unidade_N"] from rfl] at hh
  exact absurd hh (by decide)

/-- C7 amended: the efficiency section's only effect on the input table
is appending the two derived columns `Unidades_N_Ha` and
`Custo_Por_Unidade_N`; the original columns, every original cell, and
the row count are unchanged. -/
theorem effSection_appends_derived_columns :
    ∀ t : Table,
      (requiredEffCols.all fun n => t.header.contains n) = true →
      "Unidades_N_Ha" ∉ t.header → "Custo_Por_Unidade_N" ∉ t.header →
      (effSection t).1.header =
        t.header ++ ["Unidades_N_Ha", "Custo_Por_Unidade_N"] ∧
      (effSection t).1.rows.length = t.rows.length ∧
      ∀ p ∈ t.rows.zip (effSection t).1.rows, p.2.take p.1.length = p.1 := by
  intro t hall h1 h2
  have hidx1 : t.header.indexOf? "Unidades_N_Ha" = none := by
    rw [List.indexOf?_eq_none_iff]
    intro x hx hbeq
    exact absurd (eq_of_beq hbeq ▸ hx) h1
  rw [effSection, if_pos hall]
  simp only [Table.setCol, hidx1]
  have hidx2 : (t.header ++ ["Unidades_N_Ha"]).indexOf? "Custo_Por_Unidade_N" = none := by
    rw [List.indexOf?_eq_none_iff]
    intro x hx hbeq
    have hxe : x = "Custo_Por_Unidade_N" := eq_of_beq hbeq
    rw [List.mem_append] at hx
    rcases hx with hx | hx
    · exact absurd (hxe ▸ hx) h2
    · rw [List.mem_singleton] at hx
      rw [hx] at hxe
      exact absurd hxe (by decide)
  simp only [hidx2]
  rw [zipWith_map_self]
  rw [zipWith_map_self]
  refine ⟨by rw [List.append_assoc]; rfl, by rw [List.map_map, List.length_map], ?_⟩
  intro p hp
  have hform := mem_zip_map _ t.rows p (by rwa [List.map_map] at hp)
  rw [hform, Function.comp_apply, List.append_assoc, List.take_left]

/-- C7 amended witness: the concrete example table's header after the
efficiency section is its old header plus the two derived columns. -/
theorem effSection_appends_derived_columns_witness :
    (effSection exampleTable).1.header =
      exampleTable.header ++ ["Unidades_N_Ha", "Custo_Por_Unidade_N"] :=
  (effSection_appends_derived_columns exampleTable (by decide)
    (by decide) (by decide)).1

end Fert
